import Mathlib

/-!
Verification of the concurrency / lifecycle core of a sentiment-analysis
service (backend/sentiment.py and backend/app.py), shallowly embedded in Lean.

The embedding covers:
* `RequestBatcher._batch_worker` — batch formation from the FIFO queue and
  fan-out of results / errors to the per-request futures;
* `SentimentAnalyzer.load_model` — fine-tuned vs. baseline source selection,
  pipeline replacement and the exception handler;
* the lock discipline shared by `load_model` and `_predict_batch`,
  as a small interleaving transition system;
* `ModelChangeHandler.on_modified` / `on_created` — event filtering and
  debouncing of the filesystem watcher;
* `Query.predict` — the input-validation facade;
* the raw-result-to-label mapping inside `_predict_batch`.
-/

namespace SentimentCore

/-! ## Batch scheduler (`RequestBatcher._batch_worker`, sentiment.py lines 54-79)

The worker's interaction with the thread-safe queue is fully determined by the
trace of outcomes of its successive `queue.get(timeout=self.max_latency)`
calls: either an item arrives in time (`some item`) or the call times out
(`none`, the `Empty` branch).  `batchWorkerAux` renders the control flow of
lines 56-67 as a state machine over that trace; `items` is the batch collected
so far.  With `items = []` we are at the blocking get of line 59 (a timeout
just `continue`s); with `items` non-empty we are at the guarded get of
line 65 (a timeout `break`s and the batch is dispatched; an arrival extends
the batch, and the `while len(items) < self.batch_size` guard of line 63 is
re-checked).  An exhausted trace behaves like an infinite tail of timeouts:
any open batch is dispatched (the worker then idles forever).  The returned
list is the sequence of dispatched batches, in dispatch order. -/
def batchWorkerAux (batchSize : ℕ) (items : List α) :
    List (Option α) → List (List α)
  | [] => if items.isEmpty then [] else [items]
  | g :: rest =>
      match items with
      | [] =>
          match g with
          | none => batchWorkerAux batchSize [] rest
          | some r =>
              if batchSize ≤ 1 then [r] :: batchWorkerAux batchSize [] rest
              else batchWorkerAux batchSize [r] rest
      | _ :: _ =>
          match g with
          | none => items :: batchWorkerAux batchSize [] rest
          | some r =>
              if batchSize ≤ items.length + 1 then
                (items ++ [r]) :: batchWorkerAux batchSize [] rest
              else batchWorkerAux batchSize (items ++ [r]) rest

/-- The batch worker run on a trace of queue outcomes, starting (as the thread
does) with no batch open. -/
def batchWorkerRun (batchSize : ℕ) (trace : List (Option α)) : List (List α) :=
  batchWorkerAux batchSize [] trace

/-- Dispatch of one batch (`_batch_worker` lines 69-79): the texts are sent to
`predict_func` in batch order; on success the i-th result is set on the i-th
future (the `zip` of line 74, which truncates exactly as Python's does); on
exception every future of the batch is failed with that same exception.
An entry `(f, .ok r)` models `f.set_result(r)`, an entry `(f, .error e)`
models `f.set_exception(e)`. -/
def processBatch (predict : List T → Except E (List R)) (items : List (T × F)) :
    List (F × Except E R) :=
  match predict (items.map Prod.fst) with
  | .ok results => (items.map Prod.snd).zip (results.map Except.ok)
  | .error e => items.map fun it => (it.2, Except.error e)

/-- Spec-side refinement definition (not taken from the code): the spec's
batching policy for near-simultaneous arrivals — cut the arrival queue into
contiguous FIFO slices of length `batchSize` (the last possibly shorter).
Compared against `batchWorkerRun` below. -/
def specChunks (batchSize : ℕ) : List α → List (List α)
  | [] => []
  | x :: xs =>
      (x :: xs.take (batchSize - 1)) :: specChunks batchSize (xs.drop (batchSize - 1))
  termination_by q => q.length
  decreasing_by
    simp only [List.length_cons, List.length_drop]
    omega

/-! ## Model lifecycle (`SentimentAnalyzer.load_model`, sentiment.py lines 95-123)

Tokenizers, models and pipelines are external collaborators; we tag their
values with natural numbers.  A `LoadEnv` records the outcome of each external
call the body can make: the two `os.path.exists` checks (as a predicate on
paths), the `from_pretrained` calls, and the `pipeline(...)` constructor.
Python exceptions are the `Exc` type; `Exc.attributeError` is the
`AttributeError` raised when reading `self.pipeline` after `del self.pipeline`
has removed the attribute (line 115). -/

/-- Python exceptions, as far as the embedding distinguishes them. -/
inductive Exc where
  | attributeError
  | runtimeError
  | err (n : ℕ)
deriving DecidableEq, Repr

/-- Which branch of lines 101-112 a load attempt takes. -/
inductive Source where
  | fineTuned
  | baseline
deriving DecidableEq, Repr

/-- The `self.pipeline` attribute: `missing` after `del self.pipeline`
(reading it raises `AttributeError`), `isNone` when it holds Python `None`
(its `__init__` value), `current p` when it holds a built pipeline. -/
inductive PipelineSlot where
  | missing
  | isNone
  | current (p : ℕ)
deriving DecidableEq, Repr

/-- Outcomes of the external calls `load_model` can make. -/
structure LoadEnv where
  /-- Outcome of `os.path.exists`. -/
  pathExists : String → Bool
  /-- Outcome of `AutoTokenizer.from_pretrained(self.model_path)` (line 103). -/
  tokenizerFineTuned : Except Exc ℕ
  /-- Outcome of `AutoTokenizer.from_pretrained(self.model_name)` (line 107). -/
  tokenizerBaseline : Except Exc ℕ
  /-- Outcome of `model_class.from_pretrained(self.model_path)` (line 104). -/
  modelFineTuned : Except Exc ℕ
  /-- Outcome of `model_class.from_pretrained(self.model_name, from_pt=True)` (line 110). -/
  modelBaselineFromPt : Except Exc ℕ
  /-- Outcome of `model_class.from_pretrained(self.model_name)` (line 112). -/
  modelBaseline : Except Exc ℕ
  /-- Outcome of `pipeline("sentiment-analysis", model=m, tokenizer=t, ...)` (line 117). -/
  mkPipeline : ℕ → ℕ → Except Exc ℕ

/-- The artifact directory: `self.model_path = "./model"` (line 86). -/
def modelPath : String := "./model"

/-- The marker filename of line 99:
`model_file = "pytorch_model.bin" if self.framework == 'pt' else "tf_model.h5"`. -/
def markerFile (framework : String) : String :=
  if framework = "pt" then "pytorch_model.bin" else "tf_model.h5"

/-- The condition of line 101:
`os.path.exists(self.model_path) and os.path.exists(os.path.join(self.model_path, model_file))`. -/
def usesFineTuned (framework : String) (env : LoadEnv) : Bool :=
  env.pathExists modelPath && env.pathExists (modelPath ++ "/" ++ markerFile framework)

/-- Lines 101-112: acquire tokenizer and model, from the fine-tuned artifact
directory when the marker is present, else from the configured baseline
(with the tf-from-pt special case of lines 109-110).  Any raise escapes to
the handler of line 120. -/
def loadPhase (framework : String) (env : LoadEnv) : Except Exc (ℕ × ℕ) :=
  if usesFineTuned framework env then do
    let t ← env.tokenizerFineTuned
    let m ← env.modelFineTuned
    pure (t, m)
  else do
    let t ← env.tokenizerBaseline
    let m ←
      if framework = "tf" && env.pathExists (modelPath ++ "/" ++ "pytorch_model.bin") then
        env.modelBaselineFromPt
      else
        env.modelBaseline
    pure (t, m)

/-- The `except` clause of lines 120-123 with the pipeline slot in state `slot`
and the caught exception `e`: log, then `if self.pipeline is None: raise`.
When the attribute was deleted (`missing`), reading `self.pipeline` itself
raises `AttributeError`, which propagates instead of `e`.  `.ok ()` means the
exception is swallowed (only logged). -/
def exceptClause (slot : PipelineSlot) (e : Exc) : Except Exc Unit :=
  match slot with
  | .missing => .error .attributeError
  | .isNone => .error e
  | .current _ => .ok ()

instance : DecidableEq (Except Exc Unit) := fun a b =>
  match a, b with
  | .ok (), .ok () => isTrue rfl
  | .error e, .error e' =>
      if h : e = e' then isTrue (by rw [h]) else isFalse (by simp [h])
  | .ok _, .error _ => isFalse (by simp)
  | .error _, .ok _ => isFalse (by simp)

/-- Result of one `load_model` call: the final `self.pipeline` slot, whether
the call returned normally or raised, and which branch of lines 101-112 it
took. -/
structure LoadOutcome where
  slot : PipelineSlot
  result : Except Exc Unit
  source : Source
deriving DecidableEq, Repr

/-- The body of `SentimentAnalyzer.load_model` (lines 95-123), as a function of the
framework string, the external-call outcomes and the entry value of
`self.pipeline`.  Lines 114-115 delete the old pipeline (when not `None`)
before line 117 constructs the replacement; a raise in that construction
therefore reaches the handler with the attribute missing.  The lock of
line 96 is modelled separately by the transition system below. -/
def load_model (framework : String) (env : LoadEnv) (slot : PipelineSlot) :
    LoadOutcome :=
  let src := if usesFineTuned framework env then Source.fineTuned else Source.baseline
  match loadPhase framework env with
  | .error e => ⟨slot, exceptClause slot e, src⟩
  | .ok (t, m) =>
      match slot with
      | .missing =>
          -- line 114 reads a deleted attribute: AttributeError, re-raised by
          -- the handler's own read of `self.pipeline`.
          ⟨.missing, .error .attributeError, src⟩
      | .isNone =>
          match env.mkPipeline t m with
          | .error e => ⟨.isNone, exceptClause .isNone e, src⟩
          | .ok p => ⟨.current p, .ok (), src⟩
      | .current _ =>
          match env.mkPipeline t m with
          | .error e => ⟨.missing, exceptClause .missing e, src⟩
          | .ok p => ⟨.current p, .ok (), src⟩

/-- An environment in which every load succeeds but the `pipeline(...)`
constructor of line 117 raises. -/
def envCtorFails : LoadEnv where
  pathExists := fun _ => false
  tokenizerFineTuned := .ok 0
  tokenizerBaseline := .ok 1
  modelFineTuned := .ok 0
  modelBaselineFromPt := .ok 2
  modelBaseline := .ok 3
  mkPipeline := fun _ _ => .error (.err 0)

/-- An environment in which the tokenizer load of line 107 raises. -/
def envTokenizerFails : LoadEnv where
  pathExists := fun _ => false
  tokenizerFineTuned := .ok 0
  tokenizerBaseline := .error (.err 7)
  modelFineTuned := .ok 0
  modelBaselineFromPt := .ok 2
  modelBaseline := .ok 3
  mkPipeline := fun t m => .ok (t + m)

/-! ## The swap/use lock (sentiment.py lines 88, 96, 129)

`load_model` wraps its whole body in `with self.load_lock` (line 96) and
`_predict_batch` wraps the pipeline invocation in the same lock (line 129).
The interleaving of the reloading thread and the batch-worker thread is
modelled as a transition system: each thread is outside, waiting to acquire,
or inside its critical section, and the lock records its holder. -/

inductive LockOwner where
  | loader
  | batcher
deriving DecidableEq, Repr

/-- Program counter of a thread calling `load_model`: before the `with` of
line 96, blocked acquiring the lock, or executing the body (lines 97-123). -/
inductive LoaderPC where
  | outside
  | acquiring
  | loading
deriving DecidableEq, Repr

/-- Program counter of the batch worker inside `_predict_batch`: before the
`with` of line 129, blocked acquiring the lock, or invoking the pipeline
(lines 130-138). -/
inductive BatcherPC where
  | outside
  | acquiring
  | inferring
deriving DecidableEq, Repr

structure SysState where
  lock : Option LockOwner
  loadPC : LoaderPC
  predPC : BatcherPC
deriving DecidableEq, Repr

/-- Both threads start outside and the lock is free. -/
def initState : SysState := ⟨none, .outside, .outside⟩

/-- Interleaving steps.  A `with self.load_lock` entry only succeeds while no
one holds the lock; leaving the block releases it. -/
inductive SysStep : SysState → SysState → Prop where
  | loadCall (l : Option LockOwner) (b : BatcherPC) :
      SysStep ⟨l, .outside, b⟩ ⟨l, .acquiring, b⟩
  | loadAcquire (b : BatcherPC) :
      SysStep ⟨none, .acquiring, b⟩ ⟨some .loader, .loading, b⟩
  | loadRelease (b : BatcherPC) :
      SysStep ⟨some .loader, .loading, b⟩ ⟨none, .outside, b⟩
  | predCall (l : Option LockOwner) (a : LoaderPC) :
      SysStep ⟨l, a, .outside⟩ ⟨l, a, .acquiring⟩
  | predAcquire (a : LoaderPC) :
      SysStep ⟨none, a, .acquiring⟩ ⟨some .batcher, a, .inferring⟩
  | predRelease (a : LoaderPC) :
      SysStep ⟨some .batcher, a, .inferring⟩ ⟨none, a, .outside⟩

/-- States reachable from boot by any interleaving. -/
def Reachable (s : SysState) : Prop :=
  Relation.ReflTransGen SysStep initState s

/-- The lock discipline invariant: a thread is in its critical section only
while it holds the lock. -/
def LockInv (s : SysState) : Prop :=
  (s.loadPC = LoaderPC.loading → s.lock = some LockOwner.loader) ∧
  (s.predPC = BatcherPC.inferring → s.lock = some LockOwner.batcher)

/-! ## Change watcher (`ModelChangeHandler`, sentiment.py lines 19-37) -/

/-- The kinds of filesystem events the watchdog observer delivers. -/
inductive FSEventKind where
  | created
  | modified
  | deleted
  | moved
deriving DecidableEq, Repr

structure FSEvent where
  kind : FSEventKind
  isDirectory : Bool
  srcPath : String
deriving DecidableEq, Repr

/-- Handler state: `self.last_reload_time`, initially `0` (line 22).
Time is modelled as a rational. -/
structure WatcherState where
  lastReloadTime : ℚ
deriving DecidableEq, Repr

/-- The cooldown `self.reload_cooldown = 2.0` (line 23). -/
def reloadCooldown : ℚ := 2

/-- The `time.sleep(0.5)` settle delay of line 33. -/
def settleDelay : ℚ := 1 / 2

/-- The allow-list of line 27. -/
def modelFileNames : List String :=
  ["pytorch_model.bin", "tf_model.h5", "config.json", "tokenizer.json",
    "tokenizer_config.json"]

/-- Python's `needle in hay` substring test. -/
def containsSubstr (needle hay : String) : Bool :=
  hay.toList.tails.any fun t => needle.toList.isPrefixOf t

/-- The handler `on_modified` (lines 25-34): for a non-directory event whose path contains
one of the allow-listed names, and when more than the cooldown has passed
since the last triggered reload, record the trigger time and reload.
The returned `some d` means: sleep `d`, then call `self.analyzer.load_model()`;
`none` means no reload is triggered. -/
def on_modified (s : WatcherState) (now : ℚ) (e : FSEvent) :
    WatcherState × Option ℚ :=
  if e.isDirectory then (s, none)
  else if modelFileNames.any (fun f => containsSubstr f e.srcPath) then
    if now - s.lastReloadTime > reloadCooldown then
      (⟨now⟩, some settleDelay)
    else (s, none)
  else (s, none)

/-- Event dispatch: `on_created` delegates to `on_modified` (lines 36-37);
all other event kinds are inherited no-ops of `FileSystemEventHandler`. -/
def handleEvent (s : WatcherState) (now : ℚ) (e : FSEvent) :
    WatcherState × Option ℚ :=
  match e.kind with
  | .created => on_modified s now e
  | .modified => on_modified s now e
  | .deleted => (s, none)
  | .moved => (s, none)

/-! ## Prediction facade (`Query.predict`, app.py lines 22-29) -/

/-- The characters Python's `str.strip()` removes (ASCII fragment). -/
def isPySpace (c : Char) : Bool :=
  c = ' ' || c = '\t' || c = '\n' || c = '\x0d' || c = '\x0b' || c = '\x0c'

/-- Python `text.strip()` on a character list. -/
def pyStrip (text : List Char) : List Char :=
  ((text.dropWhile isPySpace).reverse.dropWhile isPySpace).reverse

/-- What `Query.predict` does with a text: raise `ValueError` (line 26), or
delegate it to `analyzer.predict` → `batcher.submit` (line 28). -/
inductive FacadeResult where
  | inputError
  | submit (text : List Char)
deriving DecidableEq, Repr

/-- Validation in `Query.predict` (lines 25-28): `if not text.strip(): raise`. -/
def queryPredict (text : List Char) : FacadeResult :=
  if (pyStrip text).isEmpty then .inputError else .submit text

/-! ## Result mapping (`_predict_batch`, sentiment.py lines 125-138) -/

/-- One raw element returned by the sentiment pipeline: a label string and a
numeric score. -/
structure RawResult where
  label : String
  score : ℚ
deriving DecidableEq, Repr

/-- One element of the value `_predict_batch` returns. -/
structure SentimentOut where
  label : String
  score : ℚ
deriving DecidableEq, Repr

/-- Python's `str.upper()` (ASCII fragment), character by character. -/
def pyUpper (s : String) : String :=
  ⟨s.data.map Char.toUpper⟩

/-- The per-element mapping of lines 132-135:
`{"label": "positive" if res["label"].upper() == "POSITIVE" else "negative",
"score": float(res["score"])}`. -/
def mapResult (r : RawResult) : SentimentOut :=
  ⟨if pyUpper r.label = "POSITIVE" then "positive" else "negative", r.score⟩

/-- The body of `_predict_batch` (lines 125-138): raise `RuntimeError` when no pipeline is
loaded; otherwise invoke the pipeline on the texts (under the lock, see the
transition system) and map each raw element; a pipeline exception is logged
and re-raised. -/
def predict_batch (pipe : Option (List T → Except Exc (List RawResult)))
    (texts : List T) : Except Exc (List SentimentOut) :=
  match pipe with
  | none => .error .runtimeError
  | some p =>
      match p texts with
      | .ok results => .ok (results.map mapResult)
      | .error e => .error e

/-! ## Helper lemmas about the batch worker -/

/-- Filling an open batch from a trace where every `get` succeeds: the batch is
topped up to `batchSize` and the rest of the queue is processed afterwards. -/
theorem batchWorkerAux_open_allSome (batchSize : ℕ) :
    ∀ (q items : List α), items ≠ [] → items.length < batchSize →
      batchWorkerAux batchSize items (q.map some) =
        (items ++ q.take (batchSize - items.length)) ::
          batchWorkerAux batchSize [] ((q.drop (batchSize - items.length)).map some) := by
  intro q
  induction q with
  | nil =>
      intro items hne _
      cases items with
      | nil => exact absurd rfl hne
      | cons i is => simp [batchWorkerAux]
  | cons r rest ih =>
      intro items hne hlt
      cases items with
      | nil => exact absurd rfl hne
      | cons i is =>
          simp only [List.length_cons] at hlt
          by_cases h : batchSize ≤ is.length + 1 + 1
          · have hb : batchSize - (is.length + 1) = 1 := by omega
            simp [batchWorkerAux, h, hb]
          · have hx : (i :: is ++ [r]).length < batchSize := by
              simp only [List.length_append, List.length_cons, List.length_nil]
              omega
            simp only [List.map_cons, batchWorkerAux, List.length_cons, h, if_false]
            rw [ih (i :: is ++ [r]) (by simp) hx]
            obtain ⟨n, hn⟩ : ∃ n, batchSize - (is.length + 1) = n + 2 :=
              ⟨batchSize - is.length - 3, by omega⟩
            have e1 : batchSize - (i :: is ++ [r]).length = n + 1 := by
              simp only [List.length_append, List.length_cons, List.length_nil]
              omega
            rw [e1]
            simp only [List.length_cons, hn]
            simp [List.take_succ_cons, List.drop_succ_cons]


/-- On a trace where every `get` succeeds (the near-simultaneous-arrival
scenario), the worker produces exactly the spec's contiguous FIFO chunks. -/
theorem batchWorkerRun_allSome (batchSize : ℕ) (q : List α) :
    batchWorkerRun batchSize (q.map some) = specChunks batchSize q := by
  have main : ∀ (n : ℕ) (q : List α), q.length ≤ n →
      batchWorkerAux batchSize [] (q.map some) = specChunks batchSize q := by
    intro n
    induction n with
    | zero =>
        intro q hq
        have : q = [] := List.length_eq_zero.mp (Nat.le_zero.mp hq)
        subst this
        simp [batchWorkerAux, specChunks]
    | succ n ih =>
        intro q hq
        cases q with
        | nil => simp [batchWorkerAux, specChunks]
        | cons x xs =>
            simp only [List.length_cons] at hq
            by_cases h : batchSize ≤ 1
            · have hb : batchSize - 1 = 0 := by omega
              simp only [List.map_cons, batchWorkerAux, h, if_true, specChunks, hb,
                List.take_zero, List.drop_zero]
              rw [ih xs (by omega)]
            · simp only [List.map_cons, batchWorkerAux, h, if_false]
              rw [batchWorkerAux_open_allSome batchSize xs [x] (by simp) (by simp; omega)]
              rw [specChunks]
              simp only [List.length_cons, List.length_nil, List.singleton_append]
              rw [ih (xs.drop (batchSize - 1)) (by simp only [List.length_drop]; omega)]
  exact main q.length q le_rfl

/-- The chunks reassemble to the original queue: batches are contiguous FIFO
slices, in arrival order, with no request dropped or duplicated. -/
theorem specChunks_flatten (batchSize : ℕ) (q : List α) :
    (specChunks batchSize q).flatten = q := by
  have main : ∀ (n : ℕ) (q : List α), q.length ≤ n →
      (specChunks batchSize q).flatten = q := by
    intro n
    induction n with
    | zero =>
        intro q hq
        have : q = [] := List.length_eq_zero.mp (Nat.le_zero.mp hq)
        subst this
        simp [specChunks]
    | succ n ih =>
        intro q hq
        cases q with
        | nil => simp [specChunks]
        | cons x xs =>
            simp only [List.length_cons] at hq
            rw [specChunks]
            simp only [List.flatten_cons]
            rw [ih (xs.drop (batchSize - 1)) (by simp only [List.length_drop]; omega)]
            simp [List.take_append_drop]
  exact main q.length q le_rfl

/-- Every chunk is non-empty and, when `batchSize ≥ 1`, no longer than
`batchSize`. -/
theorem specChunks_batch_bounds (batchSize : ℕ) (hbs : 1 ≤ batchSize)
    (q : List α) : ∀ b ∈ specChunks batchSize q, 1 ≤ b.length ∧ b.length ≤ batchSize := by
  have main : ∀ (n : ℕ) (q : List α), q.length ≤ n →
      ∀ b ∈ specChunks batchSize q, 1 ≤ b.length ∧ b.length ≤ batchSize := by
    intro n
    induction n with
    | zero =>
        intro q hq
        have : q = [] := List.length_eq_zero.mp (Nat.le_zero.mp hq)
        subst this
        simp [specChunks]
    | succ n ih =>
        intro q hq b hb
        cases q with
        | nil => simp [specChunks] at hb
        | cons x xs =>
            simp only [List.length_cons] at hq
            rw [specChunks] at hb
            rcases List.mem_cons.mp hb with h | h
            · subst h
              constructor
              · simp
              · simp only [List.length_cons]
                have := List.length_take_le (batchSize - 1) xs
                omega
            · exact ih (xs.drop (batchSize - 1))
                (by simp only [List.length_drop]; omega) b h
  exact main q.length q le_rfl

/-- The number of chunks is the ceiling of `n / batchSize`. -/
theorem specChunks_length (batchSize : ℕ) (hbs : 1 ≤ batchSize) (q : List α) :
    (specChunks batchSize q).length = (q.length + batchSize - 1) / batchSize := by
  have main : ∀ (n : ℕ) (q : List α), q.length ≤ n →
      (specChunks batchSize q).length = (q.length + batchSize - 1) / batchSize := by
    intro n
    induction n with
    | zero =>
        intro q hq
        have : q = [] := List.length_eq_zero.mp (Nat.le_zero.mp hq)
        subst this
        simp only [specChunks, List.length_nil, Nat.zero_add, List.length]
        exact (Nat.div_eq_of_lt (by omega)).symm
    | succ n ih =>
        intro q hq
        cases q with
        | nil =>
            simp only [specChunks, List.length_nil, Nat.zero_add, List.length]
            exact (Nat.div_eq_of_lt (by omega)).symm
        | cons x xs =>
            simp only [List.length_cons] at hq
            rw [specChunks]
            simp only [List.length_cons]
            rw [ih (xs.drop (batchSize - 1)) (by simp only [List.length_drop]; omega)]
            simp only [List.length_drop]
            have hgoal : xs.length + 1 + batchSize - 1 = xs.length + batchSize := by omega
            rw [hgoal, Nat.add_div_right _ (by omega)]
            by_cases hx : batchSize - 1 ≤ xs.length
            · have e1 : xs.length - (batchSize - 1) + batchSize - 1 =
                  xs.length := by omega
              rw [e1]
            · have e1 : xs.length - (batchSize - 1) = 0 := by omega
              rw [e1]
              rw [Nat.div_eq_of_lt (by omega), Nat.div_eq_of_lt (by omega)]
  exact main q.length q le_rfl

/-- Every element of a dispatched batch was pulled from the queue trace (or was
already in the open batch): the worker never invents requests. -/
theorem batchWorkerAux_mem_source (batchSize : ℕ) :
    ∀ (trace : List (Option α)) (items : List α) (b : List α) (x : α),
      b ∈ batchWorkerAux batchSize items trace → x ∈ b →
      x ∈ items ∨ some x ∈ trace := by
  intro trace
  induction trace with
  | nil =>
      intro items b x hb hx
      by_cases h : items.isEmpty
      · simp [batchWorkerAux, h] at hb
      · simp [batchWorkerAux, h] at hb
        subst hb
        exact Or.inl hx
  | cons g rest ih =>
      intro items b x hb hx
      cases items with
      | nil =>
          cases g with
          | none =>
              simp only [batchWorkerAux] at hb
              rcases ih [] b x hb hx with h | h
              · simp at h
              · exact Or.inr (List.mem_cons_of_mem _ h)
          | some r =>
              simp only [batchWorkerAux] at hb
              by_cases h1 : batchSize ≤ 1
              · simp only [h1, if_true, List.mem_cons] at hb
                rcases hb with h | h
                · subst h
                  simp only [List.mem_singleton] at hx
                  subst hx
                  exact Or.inr (List.mem_cons_self _ _)
                · rcases ih [] b x h hx with h2 | h2
                  · simp at h2
                  · exact Or.inr (List.mem_cons_of_mem _ h2)
              · simp only [h1, if_false] at hb
                rcases ih [r] b x hb hx with h2 | h2
                · simp only [List.mem_singleton] at h2
                  subst h2
                  exact Or.inr (List.mem_cons_self _ _)
                · exact Or.inr (List.mem_cons_of_mem _ h2)
      | cons i is =>
          cases g with
          | none =>
              simp only [batchWorkerAux, List.mem_cons] at hb
              rcases hb with h | h
              · subst h
                exact Or.inl hx
              · rcases ih [] b x h hx with h2 | h2
                · simp at h2
                · exact Or.inr (List.mem_cons_of_mem _ h2)
          | some r =>
              simp only [batchWorkerAux] at hb
              by_cases h1 : batchSize ≤ (i :: is).length + 1
              · simp only [h1, if_true, List.mem_cons] at hb
                rcases hb with h | h
                · subst h
                  rcases List.mem_append.mp hx with h2 | h2
                  · exact Or.inl h2
                  · simp only [List.mem_singleton] at h2
                    subst h2
                    exact Or.inr (List.mem_cons_self _ _)
                · rcases ih [] b x h hx with h2 | h2
                  · simp at h2
                  · exact Or.inr (List.mem_cons_of_mem _ h2)
              · simp only [h1, if_false] at hb
                rcases ih (i :: is ++ [r]) b x hb hx with h2 | h2
                · have h2a : x = i ∨ x ∈ is ∨ x = r := by simpa using h2
                  rcases h2a with h3 | h3 | h3
                  · subst h3
                    exact Or.inl (List.mem_cons_self _ _)
                  · exact Or.inl (List.mem_cons_of_mem _ h3)
                  · subst h3
                    exact Or.inr (List.mem_cons_self _ _)
                · exact Or.inr (List.mem_cons_of_mem _ h2)

/-- Bounds for batches dispatched on an arbitrary trace (timeouts included):
assuming the open batch respects the size bound, every dispatched batch is
non-empty and within `batchSize`. -/
theorem batchWorkerAux_batch_bounds (batchSize : ℕ) (hbs : 1 ≤ batchSize) :
    ∀ (trace : List (Option α)) (items : List α), items.length < batchSize →
      ∀ b ∈ batchWorkerAux batchSize items trace,
        1 ≤ b.length ∧ b.length ≤ batchSize := by
  intro trace
  induction trace with
  | nil =>
      intro items hlt b hb
      cases items with
      | nil => simp [batchWorkerAux] at hb
      | cons i is =>
          simp only [batchWorkerAux, List.isEmpty_cons, if_false,
            Bool.false_eq_true, List.mem_singleton] at hb
          subst hb
          simp only [List.length_cons] at hlt ⊢
          omega
  | cons g rest ih =>
      intro items hlt b hb
      have hnil : ([] : List α).length < batchSize := by
        simp only [List.length_nil]
        omega
      cases items with
      | nil =>
          cases g with
          | none =>
              simp only [batchWorkerAux] at hb
              exact ih [] hnil b hb
          | some r =>
              simp only [batchWorkerAux] at hb
              by_cases h1 : batchSize ≤ 1
              · simp only [h1, if_true, List.mem_cons] at hb
                rcases hb with h | h
                · subst h
                  simp only [List.length_singleton]
                  omega
                · exact ih [] hnil b h
              · simp only [h1, if_false] at hb
                refine ih [r] ?_ b hb
                simp only [List.length_singleton]
                omega
      | cons i is =>
          simp only [List.length_cons] at hlt
          cases g with
          | none =>
              simp only [batchWorkerAux, List.mem_cons] at hb
              rcases hb with h | h
              · subst h
                simp only [List.length_cons]
                omega
              · exact ih [] hnil b h
          | some r =>
              simp only [batchWorkerAux, List.length_cons] at hb
              by_cases h1 : batchSize ≤ is.length + 1 + 1
              · simp only [h1, if_true, List.mem_cons] at hb
                rcases hb with h | h
                · subst h
                  simp only [List.length_append, List.length_cons,
                    List.length_nil]
                  omega
                · exact ih [] hnil b h
              · simp only [h1, if_false] at hb
                refine ih (i :: is ++ [r]) ?_ b hb
                simp only [List.length_append, List.length_cons,
                  List.length_nil]
                omega

/-- On a successful prediction, batch dispatch pairs the i-th future with the
i-th result (Python's `zip`, positionally). -/
theorem processBatch_ok_zipWith {T F R E : Type}
    (predict : List T → Except E (List R)) (items : List (T × F)) (rs : List R)
    (hok : predict (items.map Prod.fst) = Except.ok rs) :
    processBatch predict items =
      List.zipWith (fun it r => (it.2, Except.ok r)) items rs := by
  have hz : ∀ (its : List (T × F)) (rzs : List R),
      (its.map Prod.snd).zip (rzs.map fun r => (Except.ok r : Except E R)) =
        List.zipWith (fun it r => (it.2, Except.ok r)) its rzs := by
    intro its
    induction its with
    | nil => intro rzs; simp
    | cons it its ih =>
        intro rzs
        cases rzs with
        | nil => simp
        | cons r rrs => simpa using ih rrs
  unfold processBatch
  rw [hok]
  exact hz items rs

/-! ## Claim theorems -/

/-- Claim C3: every request handed to the batch worker in a dispatched batch
has its completion future fulfilled exactly once — with a result on batch
success, with an error on batch failure — never left pending and never
fulfilled twice.  The fulfilled futures of a dispatch are exactly the batch's
futures, in order (so each occurs exactly once, counted).  The hypothesis is
the collaborator contract that `predict_func` returns one result per text
(which `_predict_batch` satisfies, mapping the pipeline output elementwise);
without it Python's `zip` on line 74 would silently leave futures pending. -/
theorem batch_futures_fulfilled_exactly_once {T F R E : Type} [DecidableEq F]
    (predict : List T → Except E (List R)) (items : List (T × F))
    (hlen : ∀ rs, predict (items.map Prod.fst) = Except.ok rs →
      rs.length = items.length) :
    (processBatch predict items).map Prod.fst = items.map Prod.snd
  ∧ ∀ f : F, ((processBatch predict items).map Prod.fst).count f =
      (items.map Prod.snd).count f := by
  have h1 : (processBatch predict items).map Prod.fst = items.map Prod.snd := by
    cases hok : predict (items.map Prod.fst) with
    | error e => simp [processBatch, hok]
    | ok rs =>
        simp only [processBatch, hok]
        refine List.map_fst_zip _ _ ?_
        simp only [List.length_map]
        have := hlen rs hok
        omega
  exact ⟨h1, fun f => by rw [h1]⟩

/-- Witness for C3 at a concrete batch of two requests and a length-preserving
prediction function. -/
theorem batch_futures_fulfilled_exactly_once_witness :
    (processBatch (fun ts => Except.ok (ts.map fun t => t + 1) :
        List ℕ → Except ℕ (List ℕ)) [(1, 10), (2, 20)]).map Prod.fst =
      [(10 : ℕ), 20] :=
  (batch_futures_fulfilled_exactly_once _ [(1, 10), (2, 20)]
    (by intro rs h; injection h with h2; subst h2; decide)).1

/-- Claim C4: if the batch prediction function raises for a batch, every
request in that batch has its future failed with that same exception, and no
request in the batch receives a result (lines 76-79). -/
theorem batch_failure_fans_out_same_error {T F R E : Type}
    (predict : List T → Except E (List R)) (items : List (T × F)) (e : E)
    (herr : predict (items.map Prod.fst) = Except.error e) :
    processBatch predict items = items.map (fun it => (it.2, Except.error e))
  ∧ (∀ it ∈ items, (it.2, (Except.error e : Except E R)) ∈ processBatch predict items)
  ∧ ∀ pr ∈ processBatch predict items, pr.2 = Except.error e := by
  have h1 : processBatch predict items =
      items.map (fun it => (it.2, Except.error e)) := by
    simp [processBatch, herr]
  refine ⟨h1, ?_, ?_⟩
  · intro it hit
    rw [h1]
    exact List.mem_map_of_mem _ hit
  · intro pr hpr
    rw [h1] at hpr
    obtain ⟨it, _, rfl⟩ := List.mem_map.mp hpr
    rfl

/-- Witness for C4 at a concrete failing batch of two requests. -/
theorem batch_failure_fans_out_same_error_witness :
    processBatch (fun _ => (Except.error 5 : Except ℕ (List ℕ)))
        [((0 : ℕ), (1 : ℕ)), (2, 3)] =
      [(1, Except.error 5), (3, Except.error 5)] :=
  (batch_failure_fans_out_same_error _ [((0 : ℕ), (1 : ℕ)), (2, 3)] 5 rfl).1

/-- Claim C5: with all requests already queued (near-simultaneous arrival),
the worker forms exactly the contiguous FIFO chunks of the arrival queue:
the dispatched batches refine the spec's chunking, reassemble to the queue in
order, are bounded by `batchSize`, number `ceil(n / batchSize)` (written
`(n + batchSize - 1) / batchSize`), and within a batch the i-th result is
delivered to the i-th request's future. -/
theorem batches_fifo_contiguous_positional {T F R E : Type} (bs : ℕ)
    (q : List (T × F)) (hbs : 1 ≤ bs) :
    batchWorkerRun bs (q.map some) = specChunks bs q
  ∧ (batchWorkerRun bs (q.map some)).flatten = q
  ∧ (∀ b ∈ batchWorkerRun bs (q.map some), b.length ≤ bs)
  ∧ (batchWorkerRun bs (q.map some)).length = (q.length + bs - 1) / bs
  ∧ ∀ b : List (T × F), b ∈ batchWorkerRun bs (q.map some) →
      ∀ (predict : List T → Except E (List R)) (rs : List R),
        predict (b.map Prod.fst) = Except.ok rs →
        processBatch predict b =
          List.zipWith (fun it r => (it.2, Except.ok r)) b rs := by
  refine ⟨batchWorkerRun_allSome bs q, ?_, ?_, ?_, ?_⟩
  · rw [batchWorkerRun_allSome]
    exact specChunks_flatten bs q
  · intro b hb
    rw [batchWorkerRun_allSome] at hb
    exact (specChunks_batch_bounds bs hbs q b hb).2
  · rw [batchWorkerRun_allSome]
    exact specChunks_length bs hbs q
  · intro b _ predict rs hok
    exact processBatch_ok_zipWith predict b rs hok

/-- Witness for C5: three concrete requests with `batchSize = 2` reassemble to
the queue (two batches, a contiguous FIFO split). -/
theorem batches_fifo_contiguous_positional_witness :
    (batchWorkerRun 2 ([((1 : ℕ), (10 : ℕ)), (2, 20), (3, 30)].map some)).flatten =
      [((1 : ℕ), (10 : ℕ)), (2, 20), (3, 30)] :=
  (@batches_fifo_contiguous_positional ℕ ℕ ℕ ℕ 2
    [((1 : ℕ), (10 : ℕ)), (2, 20), (3, 30)] (by decide)).2.1

/-- Claim C6: on any trace of queue outcomes (timeouts included), every batch
the worker dispatches is non-empty and contains at most `batchSize` requests;
the prediction function is never invoked on an empty batch. -/
theorem batches_nonempty_bounded {α : Type} (bs : ℕ) (hbs : 1 ≤ bs)
    (trace : List (Option α)) (b : List α) (hb : b ∈ batchWorkerRun bs trace) :
    1 ≤ b.length ∧ b.length ≤ bs :=
  batchWorkerAux_batch_bounds bs hbs trace []
    (by simp only [List.length_nil]; omega) b hb

/-- Witness for C6: a lone request followed by timeouts is dispatched as a
singleton batch within the default bound of 8. -/
theorem batches_nonempty_bounded_witness :
    1 ≤ ([3] : List ℕ).length ∧ ([3] : List ℕ).length ≤ 8 :=
  batches_nonempty_bounded 8 (by decide) [some 3, none, none] [3] (by decide)

/-- Python's `text.strip()` is empty exactly when every character is whitespace
(vacuously, when the text is empty). -/
theorem pyStrip_eq_nil_iff (text : List Char) :
    pyStrip text = [] ↔ ∀ c ∈ text, isPySpace c = true := by
  unfold pyStrip
  rw [List.reverse_eq_nil_iff, List.dropWhile_eq_nil_iff]
  constructor
  · intro h c hc
    have hsplit : text.takeWhile isPySpace ++ text.dropWhile isPySpace = text :=
      List.takeWhile_append_dropWhile isPySpace text
    rw [← hsplit] at hc
    rcases List.mem_append.mp hc with h2 | h2
    · exact List.mem_takeWhile_imp h2
    · exact h c (List.mem_reverse.mpr h2)
  · intro h c hc
    exact h c ((List.dropWhile_sublist isPySpace).subset (List.mem_reverse.mp hc))

/-- Claim C7: the facade rejects empty or whitespace-only text synchronously
with an input error, before it can reach the scheduler; any other text is
delegated to `submit` unchanged; and a text that never enters the queue is
never part of any dispatched batch, so `predict_func` is never invoked on it. -/
theorem facade_rejects_whitespace (text : List Char) :
    (queryPredict text = FacadeResult.inputError ↔ text.all isPySpace = true)
  ∧ (queryPredict text = FacadeResult.submit text ↔ text.all isPySpace = false)
  ∧ (queryPredict text = FacadeResult.inputError →
      ∀ (bs : ℕ) (trace : List (Option (List Char × ℕ))),
        (∀ p : List Char × ℕ, some p ∈ trace → p.1 ≠ text) →
        ∀ b ∈ batchWorkerRun bs trace, ∀ it ∈ b, it.1 ≠ text) := by
  have hkey : (pyStrip text).isEmpty = true ↔ text.all isPySpace = true := by
    rw [List.isEmpty_iff, pyStrip_eq_nil_iff, List.all_eq_true]
  have h3 : ∀ (bs : ℕ) (trace : List (Option (List Char × ℕ))),
      (∀ p : List Char × ℕ, some p ∈ trace → p.1 ≠ text) →
      ∀ b ∈ batchWorkerRun bs trace, ∀ it ∈ b, it.1 ≠ text := by
    intro bs trace htrace b hb it hit
    rcases batchWorkerAux_mem_source bs trace [] b it hb hit with h2 | h2
    · simp at h2
    · exact htrace it h2
  by_cases h : (pyStrip text).isEmpty = true
  · have ht : text.all isPySpace = true := hkey.mp h
    exact ⟨by simp [queryPredict, h, ht], by simp [queryPredict, h, ht],
      fun _ => h3⟩
  · have ht : text.all isPySpace = false := by
      cases hb : text.all isPySpace
      · rfl
      · exact absurd (hkey.mpr hb) h
    exact ⟨by simp [queryPredict, h, ht], by simp [queryPredict, h, ht],
      fun _ => h3⟩

/-- Witness for C7: a single-blank text is rejected with the input error. -/
theorem facade_rejects_whitespace_witness :
    queryPredict [' '] = FacadeResult.inputError :=
  (facade_rejects_whitespace [' ']).1.mpr (by decide)

/-- Claim C8: a load/reload attempt uses the fine-tuned artifact directory
exactly when the directory and its framework-specific marker file both exist
(`pytorch_model.bin` for `pt`, `tf_model.h5` for `tf`), and the configured
pretrained baseline otherwise — for every entry state of the pipeline slot. -/
theorem load_source_selection (env : LoadEnv) (slot : PipelineSlot) :
    ((load_model "pt" env slot).source =
      if env.pathExists "./model" && env.pathExists "./model/pytorch_model.bin"
      then Source.fineTuned else Source.baseline)
  ∧ ((load_model "tf" env slot).source =
      if env.pathExists "./model" && env.pathExists "./model/tf_model.h5"
      then Source.fineTuned else Source.baseline)
  ∧ ∀ framework : String, (load_model framework env slot).source =
      if usesFineTuned framework env then Source.fineTuned else Source.baseline := by
  have hsrc : ∀ framework : String, (load_model framework env slot).source =
      if usesFineTuned framework env then Source.fineTuned else Source.baseline := by
    intro framework
    unfold load_model
    cases loadPhase framework env with
    | error e => rfl
    | ok tm =>
        obtain ⟨t, m⟩ := tm
        cases slot with
        | missing => rfl
        | isNone =>
            dsimp only
            cases env.mkPipeline t m with
            | error e => rfl
            | ok p => rfl
        | current p0 =>
            dsimp only
            cases env.mkPipeline t m with
            | error e => rfl
            | ok p => rfl
  refine ⟨?_, ?_, hsrc⟩
  · rw [hsrc "pt"]
    have : usesFineTuned "pt" env =
        (env.pathExists "./model" && env.pathExists "./model/pytorch_model.bin") := by
      rfl
    rw [this]
  · rw [hsrc "tf"]
    have : usesFineTuned "tf" env =
        (env.pathExists "./model" && env.pathExists "./model/tf_model.h5") := by
      rfl
    rw [this]

/-- Claim C10: the per-element mapping of `_predict_batch` returns label
"positive" exactly when the raw label uppercased is "POSITIVE", and "negative"
for any other raw label (e.g. "NEUTRAL"); the score is passed through; so the
returned label is always one of exactly those two values, and a successful
`predict_batch` maps every raw element this way. -/
theorem label_binarisation (r : RawResult) :
    ((mapResult r).label = "positive" ↔ pyUpper r.label = "POSITIVE")
  ∧ ((mapResult r).label = "negative" ↔ pyUpper r.label ≠ "POSITIVE")
  ∧ ((mapResult r).label = "positive" ∨ (mapResult r).label = "negative")
  ∧ (mapResult r).score = r.score
  ∧ ∀ (p : List ℕ → Except Exc (List RawResult)) (texts : List ℕ)
      (raws : List RawResult), p texts = Except.ok raws →
      predict_batch (some p) texts = Except.ok (raws.map mapResult) := by
  have hlast : ∀ (p : List ℕ → Except Exc (List RawResult)) (texts : List ℕ)
      (raws : List RawResult), p texts = Except.ok raws →
      predict_batch (some p) texts = Except.ok (raws.map mapResult) := by
    intro p texts raws hp
    simp [predict_batch, hp]
  by_cases h : pyUpper r.label = "POSITIVE"
  · refine ⟨by simp [mapResult, h], ?_, ?_, rfl, hlast⟩
    · simp only [mapResult, h, if_true]
      constructor
      · intro hx
        exact absurd hx (by decide)
      · intro hx
        exact absurd rfl hx
    · exact Or.inl (by simp [mapResult, h])
  · refine ⟨?_, by simp [mapResult, h], ?_, rfl, hlast⟩
    · simp only [mapResult, h, if_false]
      constructor
      · intro hx
        exact absurd hx (by decide)
      · intro hx
        exact hx.elim
    · exact Or.inr (by simp [mapResult, h])

/-- Witness for C10: an unrecognized raw label such as "NEUTRAL" is mapped to
"negative". -/
theorem label_binarisation_witness :
    (mapResult ⟨"NEUTRAL", 1 / 2⟩).label = "negative" :=
  (label_binarisation ⟨"NEUTRAL", 1 / 2⟩).2.1.mpr (by decide)

/-- The lock invariant holds at boot. -/
theorem lockInv_init : LockInv initState := by
  simp [LockInv, initState]

/-- The lock invariant is preserved by every interleaving step. -/
theorem lockInv_step {s s' : SysState} (hs : SysStep s s') (h : LockInv s) :
    LockInv s' := by
  cases hs with
  | loadCall l b => exact ⟨by simp, h.2⟩
  | loadAcquire b =>
      exact ⟨fun _ => rfl, fun hb => absurd (h.2 hb) (by simp)⟩
  | loadRelease b =>
      exact ⟨by simp, fun hb => absurd (h.2 hb) (by simp)⟩
  | predCall l a => exact ⟨h.1, by simp⟩
  | predAcquire a =>
      exact ⟨fun ha => absurd (h.1 ha) (by simp), fun _ => rfl⟩
  | predRelease a =>
      exact ⟨fun ha => absurd (h.1 ha) (by simp), by simp⟩

/-- The lock invariant holds in every reachable state. -/
theorem reachable_lockInv {s : SysState} (h : Reachable s) : LockInv s := by
  unfold Reachable at h
  induction h with
  | refl => exact lockInv_init
  | tail _ h2 ih => exact lockInv_step h2 ih

/-- Claim C2: the single `load_lock` guards both model replacement
(`load_model`, line 96) and model invocation (`_predict_batch`, line 129): in
no reachable interleaving is a reload executing its locked body while an
inference batch is executing the pipeline call — the two never run
concurrently. -/
theorem reload_inference_mutual_exclusion (s : SysState) (h : Reachable s) :
    ¬(s.loadPC = LoaderPC.loading ∧ s.predPC = BatcherPC.inferring) := by
  rintro ⟨h1, h2⟩
  have hinv := reachable_lockInv h
  have e1 := hinv.1 h1
  have e2 := hinv.2 h2
  rw [e1] at e2
  exact absurd (Option.some.inj e2) (by simp)

/-- Witness for C2 at a concrete reachable state: the loader holds the lock
inside `load_model`'s body while the batch worker is blocked acquiring it. -/
theorem reload_inference_mutual_exclusion_witness :
    ¬((⟨some LockOwner.loader, LoaderPC.loading, BatcherPC.acquiring⟩ :
        SysState).loadPC = LoaderPC.loading ∧
      (⟨some LockOwner.loader, LoaderPC.loading, BatcherPC.acquiring⟩ :
        SysState).predPC = BatcherPC.inferring) :=
  reload_inference_mutual_exclusion _
    (Relation.ReflTransGen.tail
      (Relation.ReflTransGen.tail
        (Relation.ReflTransGen.tail Relation.ReflTransGen.refl
          (SysStep.loadCall none BatcherPC.outside))
        (SysStep.loadAcquire BatcherPC.outside))
      (SysStep.predCall (some LockOwner.loader) LoaderPC.loading))

/-- Claim C9: a reload is triggered exactly for non-directory create or modify
events whose path contains an allow-listed artifact filename, arriving more
than the cooldown after the last triggered reload; a qualifying event records
its time and waits the fixed settle delay before calling `load_model`, and a
non-qualifying event leaves the handler state unchanged. -/
theorem watcher_trigger_characterisation (s : WatcherState) (now : ℚ)
    (e : FSEvent) :
    ((handleEvent s now e).2 ≠ none ↔
      ((e.kind = FSEventKind.created ∨ e.kind = FSEventKind.modified) ∧
        e.isDirectory = false ∧
        (modelFileNames.any fun f => containsSubstr f e.srcPath) = true ∧
        now - s.lastReloadTime > reloadCooldown))
  ∧ ((handleEvent s now e).2 ≠ none →
      handleEvent s now e = (⟨now⟩, some settleDelay))
  ∧ ((handleEvent s now e).2 = none → (handleEvent s now e).1 = s) := by
  obtain ⟨k, d, path⟩ := e
  cases k with
  | deleted => exact ⟨by simp [handleEvent], by simp [handleEvent], fun _ => rfl⟩
  | moved => exact ⟨by simp [handleEvent], by simp [handleEvent], fun _ => rfl⟩
  | created =>
      cases d with
      | true => exact ⟨by simp [handleEvent, on_modified], by
          simp [handleEvent, on_modified], fun _ => rfl⟩
      | false =>
          by_cases hm : (modelFileNames.any fun f => containsSubstr f path) = true
          · by_cases hc : now - s.lastReloadTime > reloadCooldown
            · exact ⟨by simp [handleEvent, on_modified, hm, hc],
                fun _ => by simp [handleEvent, on_modified, hm, hc],
                by simp [handleEvent, on_modified, hm, hc]⟩
            · exact ⟨by simp [handleEvent, on_modified, hm, hc],
                by simp [handleEvent, on_modified, hm, hc], fun _ => by
                  simp [handleEvent, on_modified, hm, hc]⟩
          · exact ⟨by simp [handleEvent, on_modified, hm],
              by simp [handleEvent, on_modified, hm], fun _ => by
                simp [handleEvent, on_modified, hm]⟩
  | modified =>
      cases d with
      | true => exact ⟨by simp [handleEvent, on_modified], by
          simp [handleEvent, on_modified], fun _ => rfl⟩
      | false =>
          by_cases hm : (modelFileNames.any fun f => containsSubstr f path) = true
          · by_cases hc : now - s.lastReloadTime > reloadCooldown
            · exact ⟨by simp [handleEvent, on_modified, hm, hc],
                fun _ => by simp [handleEvent, on_modified, hm, hc],
                by simp [handleEvent, on_modified, hm, hc]⟩
            · exact ⟨by simp [handleEvent, on_modified, hm, hc],
                by simp [handleEvent, on_modified, hm, hc], fun _ => by
                  simp [handleEvent, on_modified, hm, hc]⟩
          · exact ⟨by simp [handleEvent, on_modified, hm],
              by simp [handleEvent, on_modified, hm], fun _ => by
                simp [handleEvent, on_modified, hm]⟩

/-- Witness for C9: a modify event on `config.json` under the model directory,
3 time units after boot, triggers a reload. -/
theorem watcher_trigger_characterisation_witness :
    (handleEvent ⟨0⟩ 3 ⟨FSEventKind.modified, false, "./model/config.json"⟩).2 ≠
      none :=
  (watcher_trigger_characterisation ⟨0⟩ 3
    ⟨FSEventKind.modified, false, "./model/config.json"⟩).1.mpr (by
      refine ⟨Or.inr rfl, rfl, by decide, by norm_num [reloadCooldown]⟩)

/-- Claim C1 (counterexample to the claim as stated): with a current pipeline
loaded and every load succeeding, a raise in the `pipeline(...)` constructor
of line 117 reaches the handler after `del self.pipeline` (line 115) has
removed the prior pipeline: the prior pipeline does not remain current, and an
exception (`AttributeError`, from the handler's own read of `self.pipeline`)
propagates instead of being only logged. -/
theorem load_model_prior_lost_on_ctor_failure :
    (load_model "pt" envCtorFails (PipelineSlot.current 5)).result ≠ Except.ok ()
  ∧ (load_model "pt" envCtorFails (PipelineSlot.current 5)).slot ≠
      PipelineSlot.current 5
  ∧ load_model "pt" envCtorFails (PipelineSlot.current 5) =
      ⟨PipelineSlot.missing, Except.error Exc.attributeError, Source.baseline⟩ := by
  refine ⟨by decide, by decide, by decide⟩

/-- Claim C1 (amended): if the failure occurs while loading the tokenizer or
model (lines 101-112) and a current pipeline exists, the prior pipeline stays
current and the exception is only logged (not re-raised); if the failure
occurs in the `pipeline(...)` constructor (line 117) with a prior pipeline,
the prior pipeline has already been deleted and an `AttributeError`
propagates; on first boot (`self.pipeline` is `None`) any failure propagates
and no pipeline becomes current. -/
theorem load_model_failure_policy (framework : String) (env : LoadEnv) (p : ℕ) :
    (∀ e, loadPhase framework env = Except.error e →
      (load_model framework env (PipelineSlot.current p)).slot =
        PipelineSlot.current p ∧
      (load_model framework env (PipelineSlot.current p)).result = Except.ok ())
  ∧ (∀ t m e, loadPhase framework env = Except.ok (t, m) →
      env.mkPipeline t m = Except.error e →
      (load_model framework env (PipelineSlot.current p)).slot =
        PipelineSlot.missing ∧
      (load_model framework env (PipelineSlot.current p)).result =
        Except.error Exc.attributeError)
  ∧ (∀ t m q, loadPhase framework env = Except.ok (t, m) →
      env.mkPipeline t m = Except.ok q →
      (load_model framework env (PipelineSlot.current p)).slot =
        PipelineSlot.current q ∧
      (load_model framework env (PipelineSlot.current p)).result = Except.ok ())
  ∧ (∀ e, loadPhase framework env = Except.error e →
      (load_model framework env PipelineSlot.isNone).slot = PipelineSlot.isNone ∧
      (load_model framework env PipelineSlot.isNone).result = Except.error e)
  ∧ (∀ t m e, loadPhase framework env = Except.ok (t, m) →
      env.mkPipeline t m = Except.error e →
      (load_model framework env PipelineSlot.isNone).slot = PipelineSlot.isNone ∧
      (load_model framework env PipelineSlot.isNone).result = Except.error e) := by
  refine ⟨?_, ?_, ?_, ?_, ?_⟩
  · intro e h
    constructor <;> simp [load_model, h, exceptClause]
  · intro t m e h1 h2
    constructor <;> simp [load_model, h1, h2, exceptClause]
  · intro t m q h1 h2
    constructor <;> simp [load_model, h1, h2]
  · intro e h
    constructor <;> simp [load_model, h, exceptClause]
  · intro t m e h1 h2
    constructor <;> simp [load_model, h1, h2, exceptClause]

/-- Witness for the amended C1: a tokenizer-load failure with a prior pipeline
keeps the prior pipeline current and returns normally. -/
theorem load_model_failure_policy_witness :
    (load_model "pt" envTokenizerFails (PipelineSlot.current 5)).slot =
      PipelineSlot.current 5 ∧
    (load_model "pt" envTokenizerFails (PipelineSlot.current 5)).result =
      Except.ok () :=
  (load_model_failure_policy "pt" envTokenizerFails 5).1 (Exc.err 7) rfl


end SentimentCore
